import Mathlib

/-
Verification of the filter pipeline in wsi/filter.py.

Images are NumPy arrays of shape (h, w) or (h, w, 3).  We embed a
two-dimensional array as a list of rows.  Element domains:
uint8 arrays become lists of naturals (with the invariant that values are
below 256, stated as a hypothesis where it matters), float arrays become
lists of rationals (the exact-arithmetic reading of float64), and boolean
arrays become lists of booleans.  A dynamically typed NumPy result is a
value of the sum type `NpArray`.

External skimage/scipy routines called by the source are not part of the
repository; each filter takes the routine it calls as an explicit function
argument (so every theorem quantifies over all possible library results),
except where a claim depends on the library behaviour itself
(`remove_small_objects`, `rank.subtract_mean`); those two are modelled
concretely from the library documentation, as noted at their definitions.
-/

/-- Dynamically typed NumPy array (two-dimensional), one constructor per
element dtype that the source manipulates. -/
inductive NpArray where
  | boolA : List (List Bool) → NpArray
  | floatA : List (List ℚ) → NpArray
  | uint8A : List (List ℕ) → NpArray
deriving DecidableEq

/-- Elementwise map over a two-dimensional array. -/
def nmap (f : α → β) (g : List (List α)) : List (List β) :=
  g.map (List.map f)

/-- Elementwise combination of two two-dimensional arrays (same-shape NumPy
broadcasting). -/
def nzip (f : α → β → γ) (a : List (List α)) (b : List (List β)) : List (List γ) :=
  List.zipWith (List.zipWith f) a b

/-- Numeric value view of an array: booleans read as 0/1, uint8 entries as
their rational value.  This is the value semantics NumPy elementwise `==`
compares by. -/
def toQ : NpArray → List (List ℚ)
  | .boolA l => nmap (fun b => if b then (1 : ℚ) else 0) l
  | .floatA l => l
  | .uint8A l => nmap (fun n : ℕ => (n : ℚ)) l

/-- Boolean coercion of an array, as NumPy `astype(bool)`: nonzero is True. -/
def toBoolA : NpArray → List (List Bool)
  | .boolA l => l
  | .floatA l => nmap (fun x => decide (x ≠ 0)) l
  | .uint8A l => nmap (fun n => decide (n ≠ 0)) l

/-- Predicate picking out boolean-dtype arrays. -/
def NpArray.isBoolA : NpArray → Bool
  | .boolA _ => true
  | _ => false

/-- Predicate picking out float-dtype arrays. -/
def NpArray.isFloatA : NpArray → Bool
  | .floatA _ => true
  | _ => false

/-- Predicate picking out uint8-dtype arrays. -/
def NpArray.isUint8A : NpArray → Bool
  | .uint8A _ => true
  | _ => false

/-- Every numeric value of the array satisfies the predicate. -/
def valsAll (a : NpArray) (p : ℚ → Bool) : Bool :=
  (toQ a).all (fun row => row.all p)

/-- Extract the mask of a boolean-dtype array (junk on other dtypes; used
only to state theorems about results produced with output_type "bool"). -/
def maskOf : NpArray → List (List Bool)
  | .boolA m => m
  | _ => []

/-- Entry of a boolean grid at (row, column), False outside the grid. -/
def bget (g : List (List Bool)) (p : ℕ × ℕ) : Bool :=
  (g.getD p.1 []).getD p.2 false

/-- Entry of a rational grid at (row, column), 0 outside the grid. -/
def qget (g : List (List ℚ)) (p : ℕ × ℕ) : ℚ :=
  (g.getD p.1 []).getD p.2 0

/-- Entry of a natural-number grid at (row, column), 0 outside the grid. -/
def nget (g : List (List ℕ)) (p : ℕ × ℕ) : ℕ :=
  (g.getD p.1 []).getD p.2 0

/-- Conversion of a nonnegative float to uint8 as NumPy astype("uint8")
performs it on the values arising here: truncation toward zero (the C cast);
values are clamped into the dtype range for totality, every value the claims
evaluate being already inside [0, 255]. -/
def ratToU8 (x : ℚ) : ℕ :=
  min 255 (Int.toNat ⌊x⌋)

/-- Luminance dot product of filter.py line 79:
np.dot(np_img[..., :3], [0.2125, 0.7154, 0.0721]). -/
def grayVal : ℚ × ℚ × ℚ → ℚ
  | (r, g, b) => (2125 / 10000) * r + (7154 / 10000) * g + (721 / 10000) * b

/-- filter_rgb_to_grayscale (filter.py lines 64-83).  The input is an RGB
array: a grid of channel triples (the source slices the first three channels
with [..., :3], so a triple per pixel is the exact data consumed).  When
output_type is not "float" the float result is converted with
astype("uint8"), which truncates. -/
def filter_rgb_to_grayscale (np_img : List (List (ℚ × ℚ × ℚ))) (output_type : String) : NpArray :=
  let grayscale := nmap grayVal np_img
  if output_type ≠ "float" then .uint8A (nmap ratToU8 grayscale)
  else .floatA grayscale

/-- filter_complement (filter.py lines 86-103).  With output_type "float"
NumPy computes 1.0 - x, promoting any input dtype to float; otherwise it
computes 255 - x in the input's own arithmetic (for a uint8 array this is
uint8 arithmetic, which never wraps because every uint8 value is at most
255; a boolean input is promoted by NumPy to an integer array, which we
carry as a uint8A since its values 254/255 fit). -/
def filter_complement (np_img : NpArray) (output_type : String) : NpArray :=
  if output_type = "float" then .floatA (nmap (fun x => 1 - x) (toQ np_img))
  else
    match np_img with
    | .uint8A l => .uint8A (nmap (fun n => 255 - n) l)
    | .floatA l => .floatA (nmap (fun x => 255 - x) l)
    | .boolA l => .uint8A (nmap (fun b => 255 - (if b then 1 else 0)) l)

/-- filter_hysteresis_threshold (filter.py lines 128-150).  The external
routine sk_filters.apply_hysteresis_threshold returns a boolean array and is
passed as the argument apply_hysteresis_threshold.  The uint8 branch is
(255 * hyst).astype("uint8"). -/
def filter_hysteresis_threshold
    (apply_hysteresis_threshold : List (List ℚ) → ℚ → ℚ → List (List Bool))
    (np_img : List (List ℚ)) (low high : ℚ) (output_type : String) : NpArray :=
  let hyst := apply_hysteresis_threshold np_img low high
  if output_type = "bool" then .boolA hyst
  else if output_type = "float" then .floatA (nmap (fun b => if b then (1 : ℚ) else 0) hyst)
  else .uint8A (nmap (fun b => 255 * (if b then 1 else 0)) hyst)

/-- filter_otsu_threshold (filter.py lines 153-174).  The external routine
sk_filters.threshold_otsu returns a scalar and is passed as the argument
threshold_otsu; the source then takes np_img > otsu_thresh_value.  The uint8
branch is otsu.astype("uint8") * 255. -/
def filter_otsu_threshold
    (threshold_otsu : List (List ℚ) → ℚ)
    (np_img : List (List ℚ)) (output_type : String) : NpArray :=
  let otsu_thresh_value := threshold_otsu np_img
  let otsu := nmap (fun x => decide (x > otsu_thresh_value)) np_img
  if output_type = "bool" then .boolA otsu
  else if output_type = "float" then .floatA (nmap (fun b => if b then (1 : ℚ) else 0) otsu)
  else .uint8A (nmap (fun b => (if b then 1 else 0) * 255) otsu)

/-- filter_local_otsu_threshold (filter.py lines 177-200).  The external
routine sk_filters.rank.otsu returns a per-pixel threshold array and is
passed as the argument rank_otsu (applied to the image and the disk size);
the source then takes np_img <= local_otsu elementwise. -/
def filter_local_otsu_threshold
    (rank_otsu : List (List ℚ) → ℕ → List (List ℚ))
    (np_img : List (List ℚ)) (disk_size : ℕ) (output_type : String) : NpArray :=
  let local_otsu := nzip (fun x t => decide (x ≤ t)) np_img (rank_otsu np_img disk_size)
  if output_type = "bool" then .boolA local_otsu
  else if output_type = "float" then .floatA (nmap (fun b => if b then (1 : ℚ) else 0) local_otsu)
  else .uint8A (nmap (fun b => (if b then 1 else 0) * 255) local_otsu)

/-- filter_entropy (filter.py lines 203-225).  The external routine
sk_filters.rank.entropy returns a per-pixel entropy array and is passed as
the argument rank_entropy (applied to the image and the neighborhood side
length); the source then compares it against the scalar threshold. -/
def filter_entropy
    (rank_entropy : List (List ℚ) → ℕ → List (List ℚ))
    (np_img : List (List ℚ)) (neighborhood : ℕ) (threshold : ℚ)
    (output_type : String) : NpArray :=
  let entr := nmap (fun e => decide (e > threshold)) (rank_entropy np_img neighborhood)
  if output_type = "bool" then .boolA entr
  else if output_type = "float" then .floatA (nmap (fun b => if b then (1 : ℚ) else 0) entr)
  else .uint8A (nmap (fun b => (if b then 1 else 0) * 255) entr)

/-- filter_canny (filter.py lines 228-251).  The external routine
sk_feature.canny returns a boolean edge map and is passed as the argument
canny. -/
def filter_canny
    (canny : List (List ℚ) → ℚ → ℚ → ℚ → List (List Bool))
    (np_img : List (List ℚ)) (sigma low_threshold high_threshold : ℚ)
    (output_type : String) : NpArray :=
  let can := canny np_img sigma low_threshold high_threshold
  if output_type = "bool" then .boolA can
  else if output_type = "float" then .floatA (nmap (fun b => if b then (1 : ℚ) else 0) can)
  else .uint8A (nmap (fun b => (if b then 1 else 0) * 255) can)

/-- filter_histogram_equalization (filter.py lines 299-321).  When the input
dtype is uint8 and nbins is not 256 the source first divides by 255 (a float
array); the external routine sk_exposure.equalize_hist is passed as the
argument equalize_hist and returns a float array. -/
def filter_histogram_equalization
    (equalize_hist : NpArray → ℕ → List (List ℚ))
    (np_img : NpArray) (nbins : ℕ) (output_type : String) : NpArray :=
  let inp := if np_img.isUint8A ∧ nbins ≠ 256
    then NpArray.floatA (nmap (fun x => x / 255) (toQ np_img)) else np_img
  let hist_equ := equalize_hist inp nbins
  if output_type = "float" then .floatA hist_equ
  else .uint8A (nmap (fun x => ratToU8 (x * 255)) hist_equ)

/-- filter_adaptive_equalization (filter.py lines 324-345).  The external
routine sk_exposure.equalize_adapthist is passed as the argument
equalize_adapthist and returns a float array. -/
def filter_adaptive_equalization
    (equalize_adapthist : NpArray → ℕ → ℚ → List (List ℚ))
    (np_img : NpArray) (nbins : ℕ) (clip_limit : ℚ) (output_type : String) : NpArray :=
  let adapt_equ := equalize_adapthist np_img nbins clip_limit
  if output_type = "float" then .floatA adapt_equ
  else .uint8A (nmap (fun x => ratToU8 (x * 255)) adapt_equ)

/-- filter_autolevel (filter.py lines 365-376).  The external routine
sk_filters.rank.autolevel is passed as the argument rank_autolevel; the
source then takes np_img > autolevel elementwise. -/
def filter_autolevel
    (rank_autolevel : List (List ℚ) → ℕ → List (List ℚ))
    (np_img : List (List ℚ)) (disk_size : ℕ) (output_type : String) : NpArray :=
  let autolevel := nzip (fun x a => decide (x > a)) np_img (rank_autolevel np_img disk_size)
  if output_type = "bool" then .boolA autolevel
  else if output_type = "float" then .floatA (nmap (fun b => if b then (1 : ℚ) else 0) autolevel)
  else .uint8A (nmap (fun b => (if b then 1 else 0) * 255) autolevel)

/-- filter_modal (filter.py lines 393-397).  The external routine
sk_filters.rank.modal is passed as the argument rank_modal.  The source
accepts output_type but never consumes it: the rank-filter result is
returned directly. -/
def filter_modal
    (rank_modal : List (List ℕ) → ℕ → List (List ℕ))
    (np_img : List (List ℕ)) (neigh : ℕ) (output_type : String) : NpArray :=
  .uint8A (rank_modal np_img neigh)

/-- Orthogonal (4-neighbor) adjacency of grid positions.  This is the
neighborhood of scipy.ndimage.generate_binary_structure(2, 1), the
structuring element skimage.morphology.remove_small_objects labels with at
its default connectivity=1. -/
def adj4 (p q : ℕ × ℕ) : Bool :=
  decide (Nat.dist p.1 q.1 + Nat.dist p.2 q.2 = 1)

/-- Chebyshev (8-neighbor) adjacency of grid positions (connectivity 2). -/
def adj8 (p q : ℕ × ℕ) : Bool :=
  decide (p ≠ q ∧ Nat.dist p.1 q.1 ≤ 1 ∧ Nat.dist p.2 q.2 ≤ 1)

/-- One step of foreground connectivity: both pixels are True and the
positions are orthogonal neighbors. -/
def stepB (g : List (List Bool)) (p q : ℕ × ℕ) : Bool :=
  bget g p && bget g q && adj4 p q

/-- Reachability inside the foreground under 4-adjacency: the connected
component relation induced by the labelling remove_small_objects performs. -/
def Reach4 (g : List (List Bool)) (p q : ℕ × ℕ) : Prop :=
  Relation.ReflTransGen (fun a b => stepB g a b = true) p q

/-- One step of foreground connectivity under 8-adjacency. -/
def step8 (g : List (List Bool)) (p q : ℕ × ℕ) : Bool :=
  bget g p && bget g q && adj8 p q

/-- Reachability inside the foreground under 8-adjacency. -/
def Reach8 (g : List (List Bool)) (p q : ℕ × ℕ) : Prop :=
  Relation.ReflTransGen (fun a b => step8 g a b = true) p q

/-- Width bound of a grid: the maximum row length. -/
def gridW (g : List (List α)) : ℕ :=
  (g.map List.length).foldr max 0

/-- Finite set of all positions of the bounding box of the grid. -/
def allPos (g : List (List Bool)) : Finset (ℕ × ℕ) :=
  Finset.range g.length ×ˢ Finset.range (gridW g)

/-- One round of breadth-first expansion of a set of positions by
foreground adjacency. -/
def expand (g : List (List Bool)) (s : Finset (ℕ × ℕ)) : Finset (ℕ × ℕ) :=
  s ∪ (allPos g).filter (fun q => ∃ p ∈ s, stepB g p q = true)

/-- Saturated expansion from p: enough rounds of expansion to reach the
fixpoint, hence the set of positions reachable from p. -/
def reachF (g : List (List Bool)) (p : ℕ × ℕ) : Finset (ℕ × ℕ) :=
  (expand g)^[g.length * gridW g + 1] {p}

/-- Modelled from the library: skimage.morphology.remove_small_objects at
its default connectivity=1 labels the 4-connected components of a boolean
array (scipy.ndimage.label with the connectivity-1 structuring element),
counts each component's pixels, zeroes every pixel whose component count is
strictly below min_size, and returns every other pixel unchanged. -/
def sk_remove_small_objects (g : List (List Bool)) (min_size : ℕ) : List (List Bool) :=
  (List.range g.length).map (fun r =>
    (List.range (g.getD r []).length).map (fun c =>
      bget g (r, c) && decide (min_size ≤ (reachF g (r, c)).card)))

/-- filter_remove_small_objects (filter.py lines 254-276): the input is
coerced with astype(bool), handed to the library routine, and the result is
normalized. -/
def filter_remove_small_objects (np_img : NpArray) (min_size : ℕ)
    (output_type : String) : NpArray :=
  let rem_sm := sk_remove_small_objects (toBoolA np_img) min_size
  if output_type = "bool" then .boolA rem_sm
  else if output_type = "float" then .floatA (nmap (fun b => if b then (1 : ℚ) else 0) rem_sm)
  else .uint8A (nmap (fun b => (if b then 1 else 0) * 255) rem_sm)

/-- List of all in-bounds positions of a natural-number grid. -/
def posList (g : List (List ℕ)) : List (ℕ × ℕ) :=
  ((List.range g.length).map (fun r =>
    (List.range (g.getD r []).length).map (fun c => (r, c)))).flatten

/-- In-bounds part of the square window of side length n whose anchor pixel
(r, c) sits at footprint offset (n / 2, n / 2), the centre skimage uses for
the footprint np.ones((n, n)). -/
def winCells (g : List (List ℕ)) (r c n : ℕ) : List (ℕ × ℕ) :=
  (posList g).filter (fun q =>
    decide ((r : ℤ) - (n / 2 : ℕ) ≤ q.1 ∧ (q.1 : ℤ) < (r : ℤ) - (n / 2 : ℕ) + n ∧
            (c : ℤ) - (n / 2 : ℕ) ≤ q.2 ∧ (q.2 : ℤ) < (c : ℤ) - (n / 2 : ℕ) + n))

/-- Arithmetic mean of the grid values over the in-bounds window. -/
def localMeanQ (g : List (List ℕ)) (r c n : ℕ) : ℚ :=
  ((winCells g r c n).map (fun q => (nget g q : ℚ))).sum / ((winCells g r c n).length : ℚ)

/-- Modelled from the library: skimage.filters.rank.subtract_mean returns,
per pixel, the image value minus the local mean over the footprint; the
library documents that to avoid underflow this difference is downscaled by
a factor of 2 and shifted by n_bins / 2 - 1 = 127 for uint8 images, then
cast to the dtype; an empty footprint population yields 0. -/
def sk_rank_subtract_mean (g : List (List ℕ)) (n : ℕ) : List (List ℕ) :=
  (List.range g.length).map (fun r =>
    (List.range (g.getD r []).length).map (fun c =>
      if (winCells g r c n).length = 0 then 0
      else ratToU8 (((nget g (r, c) : ℚ) - localMeanQ g r c n) / 2 + 127)))

/-- filter_subtract_mean (filter.py lines 379-390): the library rank filter
over the footprint np.ones((neigh, neigh)), then np_img > subtract_mean
elementwise, then normalization. -/
def filter_subtract_mean (np_img : List (List ℕ)) (neigh : ℕ)
    (output_type : String) : NpArray :=
  let subtract_mean := nzip (fun x s => decide (x > s)) np_img (sk_rank_subtract_mean np_img neigh)
  if output_type = "bool" then .boolA subtract_mean
  else if output_type = "float" then .floatA (nmap (fun b => if b then (1 : ℚ) else 0) subtract_mean)
  else .uint8A (nmap (fun b => (if b then 1 else 0) * 255) subtract_mean)

/-- One module-level Python statement of wsi/filter.py: the global names it
reads and the global names it binds (by import, def, or assignment). -/
structure PyStmt where
  refs : List String
  binds : List String

/-- Execution of a module body: each statement resolves its referenced
global names against the environment, raising NameError at the first
unresolved name, and otherwise binds its targets and continues. -/
def runStmts (env : List String) : List PyStmt → Except String (List String)
  | [] => .ok env
  | s :: rest =>
    match s.refs.find? (fun n => !env.contains n) with
    | some n => .error ("NameError: " ++ n)
    | none => runStmts (env ++ s.binds) rest

/-- Module body of wsi/filter.py, statement by statement: the imports
(lines 22-30), the def statements in source order (lines 33-397; the def of
filter_try at lines 400-411 is commented out and therefore binds nothing),
and the uncommented top-level script statements (lines 413-419 and 462).
Each script statement lists exactly the global names appearing in it; the
bodies of the called functions refer only to imported or previously
defined globals. -/
def wsiFilterModule : List PyStmt :=
  [⟨[], ["plt", "np", "PIL", "sk_exposure", "sk_feature", "sk_filters",
         "sk_morphology", "slide", "Time"]⟩,
   ⟨[], ["pil_to_np_rgb"]⟩, ⟨[], ["np_to_pil"]⟩, ⟨[], ["filter_rgb_to_grayscale"]⟩,
   ⟨[], ["filter_complement"]⟩, ⟨[], ["np_info"]⟩, ⟨[], ["filter_hysteresis_threshold"]⟩,
   ⟨[], ["filter_otsu_threshold"]⟩, ⟨[], ["filter_local_otsu_threshold"]⟩,
   ⟨[], ["filter_entropy"]⟩, ⟨[], ["filter_canny"]⟩, ⟨[], ["filter_remove_small_objects"]⟩,
   ⟨[], ["filter_contrast_stretch"]⟩, ⟨[], ["filter_histogram_equalization"]⟩,
   ⟨[], ["filter_adaptive_equalization"]⟩, ⟨[], ["filter_local_equalization"]⟩,
   ⟨[], ["filter_autolevel"]⟩, ⟨[], ["filter_subtract_mean"]⟩, ⟨[], ["filter_modal"]⟩,
   ⟨["slide"], ["img_path"]⟩,
   ⟨["slide", "img_path"], ["img"]⟩,
   ⟨["pil_to_np_rgb", "img"], ["rgb"]⟩,
   ⟨["filter_rgb_to_grayscale", "rgb"], ["gray"]⟩,
   ⟨["np_to_pil", "gray"], []⟩,
   ⟨["filter_complement", "gray"], ["complement"]⟩,
   ⟨["filter_try", "gray"], ["tryit"]⟩]

/-- Reading a mapped list inside its bounds ignores both defaults. -/
theorem getD_map_lt {f : α → β} {l : List α} {i : ℕ} (h : i < l.length) (d : α) (d' : β) :
    (l.map f).getD i d' = f (l.getD i d) := by
  rw [List.getD_eq_getElem _ _ (by simpa using h), List.getD_eq_getElem _ _ h, List.getElem_map]

/-- Reading a zipped list inside the bounds of both inputs ignores defaults. -/
theorem getD_zipWith_lt {f : α → β → γ} {l₁ : List α} {l₂ : List β} {i : ℕ}
    (h₁ : i < l₁.length) (h₂ : i < l₂.length) (d₁ : α) (d₂ : β) (d₃ : γ) :
    (List.zipWith f l₁ l₂).getD i d₃ = f (l₁.getD i d₁) (l₂.getD i d₂) := by
  rw [List.getD_eq_getElem _ _ (by simp [List.length_zipWith]; omega),
    List.getD_eq_getElem _ _ h₁, List.getD_eq_getElem _ _ h₂, List.getElem_zipWith]

/-- Reading a list built by mapping over List.range, inside its bounds. -/
theorem getD_range_map {F : ℕ → β} {n i : ℕ} (h : i < n) (d : β) :
    ((List.range n).map F).getD i d = F i := by
  rw [getD_map_lt (by simpa using h) 0, List.getD_eq_getElem _ _ (by simpa using h),
    List.getElem_range]

/-- Composition of elementwise maps. -/
theorem nmap_nmap (f : β → γ) (g : α → β) (l : List (List α)) :
    nmap f (nmap g l) = nmap (fun x => f (g x)) l := by
  simp [nmap, List.map_map, Function.comp]

/-- Elementwise maps agreeing on every entry of the grid give equal grids. -/
theorem nmap_congr {f₁ f₂ : α → β} {g : List (List α)}
    (h : ∀ row ∈ g, ∀ x ∈ row, f₁ x = f₂ x) : nmap f₁ g = nmap f₂ g := by
  unfold nmap
  exact List.map_congr_left (fun row hrow => List.map_congr_left (h row hrow))

/-- Claim C9.  Implicit: the modal filter's output is completely independent
of its output_type parameter: for every library modal result, input image,
neighborhood and every pair of output_type values, filter_modal returns the
identical array, never routed through the bool/float/uint8 normalization. -/
theorem C9_modal_ignores_output_type
    (rank_modal : List (List ℕ) → ℕ → List (List ℕ))
    (np_img : List (List ℕ)) (neigh : ℕ) (t₁ t₂ : String) :
    filter_modal rank_modal np_img neigh t₁ = filter_modal rank_modal np_img neigh t₂ := rfl

/-- Claim C10.  Implicit: loading the module always fails: after the import
statements, the function definitions and the thumbnail-processing statements
all resolve, the final top-level statement calls filter_try, whose
definition is commented out, so name resolution raises NameError there and
the module load cannot complete; every earlier statement resolves. -/
theorem C10_module_load_name_error :
    runStmts [] wsiFilterModule = .error ("NameError: " ++ "filter_try")
    ∧ (∃ env, runStmts [] wsiFilterModule.dropLast = .ok env) := by
  exact ⟨rfl, ⟨_, rfl⟩⟩

/-- Counterexample to claim C5 as stated: on the RGB image every pixel of
which is (100, 150, 200), the float grayscale output pixel is not 135.395
(it is 142.98, computed below). -/
theorem C5_grayscale_concrete_cex :
    filter_rgb_to_grayscale [[(100, 150, 200)]] "float" ≠ .floatA [[(135395 : ℚ) / 1000]] := by
  rw [filter_rgb_to_grayscale, if_neg (by decide)]
  intro hEq
  simp only [nmap, List.map_cons, List.map_nil, NpArray.floatA.injEq, List.cons.injEq,
    and_true] at hEq
  norm_num [grayVal] at hEq

/-- Claim C5 as amended.  The grayscale reduction maps every pixel to the
dot product of its channels with the weights [0.2125, 0.7154, 0.0721];
output_type "float" keeps the continuous value and the default output is
truncated (not rounded) to uint8; on an RGB image where every pixel is
(100, 150, 200) the float output is everywhere
0.2125*100 + 0.7154*150 + 0.0721*200 = 142.98 (and truncation would give
142, not the rounded 143). -/
theorem C5_grayscale_luminance (img : List (List (ℚ × ℚ × ℚ))) (h w : ℕ) :
    filter_rgb_to_grayscale img "float" = .floatA (nmap grayVal img)
    ∧ filter_rgb_to_grayscale img "uint8" = .uint8A (nmap (fun px => ratToU8 (grayVal px)) img)
    ∧ grayVal (100, 150, 200)
        = (2125 / 10000) * 100 + (7154 / 10000) * 150 + (721 / 10000) * 200
    ∧ filter_rgb_to_grayscale (List.replicate h (List.replicate w ((100 : ℚ), (150 : ℚ), (200 : ℚ)))) "float"
        = .floatA (List.replicate h (List.replicate w ((14298 : ℚ) / 100)))
    ∧ ratToU8 ((14298 : ℚ) / 100) = 142 := by
  refine ⟨?_, ?_, rfl, ?_, by norm_num [ratToU8]; decide⟩
  · rw [filter_rgb_to_grayscale, if_neg (by decide)]
  · rw [filter_rgb_to_grayscale, if_pos (by decide), nmap_nmap]
  · rw [filter_rgb_to_grayscale, if_neg (by decide)]
    simp only [nmap, List.map_replicate]
    norm_num [grayVal]

/-- Claim C6.  Grayscale of a uniform pure-white RGB image (255, 255, 255
at every pixel) with output_type "uint8" yields 255 at every pixel. -/
theorem C6_grayscale_white_uint8 (h w : ℕ) :
    filter_rgb_to_grayscale (List.replicate h (List.replicate w ((255 : ℚ), (255 : ℚ), (255 : ℚ)))) "uint8"
      = .uint8A (List.replicate h (List.replicate w 255)) := by
  rw [filter_rgb_to_grayscale, if_pos (by decide)]
  simp only [nmap, List.map_replicate]
  norm_num [grayVal, ratToU8]

/-- Entries of a grid obtained by mapping booleans satisfy any predicate
holding of both images. -/
theorem all_nmap_bool {f : Bool → ℚ} {p : ℚ → Bool} (h0 : p (f false) = true)
    (h1 : p (f true) = true) (m : List (List Bool)) :
    (nmap f m).all (fun row => row.all p) = true := by
  rw [List.all_eq_true]
  intro row hrow
  rcases List.mem_map.mp hrow with ⟨r, hr, rfl⟩
  rw [List.all_eq_true]
  intro x hx
  rcases List.mem_map.mp hx with ⟨b, hb, rfl⟩
  cases b
  · exact h0
  · exact h1

/-- Values of a float normalization of a boolean mask lie in {0.0, 1.0}. -/
theorem normFloat_vals01 (m : List (List Bool)) :
    valsAll (.floatA (nmap (fun b => if b then (1 : ℚ) else 0) m))
      (fun x => x == 0 || x == 1) = true := by
  simp only [valsAll, toQ]
  exact all_nmap_bool (by norm_num) (by norm_num) m

/-- Values of a uint8 normalization of a boolean mask lie in {0, 255}. -/
theorem normU8_vals0255 (m : List (List Bool)) (g : Bool → ℕ) (hg0 : g false = 0)
    (hg255 : g true = 255) :
    valsAll (.uint8A (nmap g m)) (fun x => x == 0 || x == 255) = true := by
  simp only [valsAll, toQ, nmap_nmap]
  exact all_nmap_bool (by norm_num [hg0]) (by norm_num [hg255]) m

/-- Claim C1.  For each of the five Threshold-Family transforms
(hysteresis, global Otsu, local Otsu, entropy, Canny), every input image and
every library result: output_type "bool" returns a boolean-dtype array;
output_type "float" returns a float-dtype array with every element in
{0.0, 1.0}; output_type "uint8" returns a uint8-dtype array with every
element in {0, 255}. -/
theorem C1_threshold_output_normalization
    (apply_hysteresis_threshold : List (List ℚ) → ℚ → ℚ → List (List Bool))
    (threshold_otsu : List (List ℚ) → ℚ)
    (rank_otsu : List (List ℚ) → ℕ → List (List ℚ))
    (rank_entropy : List (List ℚ) → ℕ → List (List ℚ))
    (canny : List (List ℚ) → ℚ → ℚ → ℚ → List (List Bool))
    (img : List (List ℚ)) (low high : ℚ) (disk_size neighborhood : ℕ)
    (threshold sigma low_t high_t : ℚ) :
    ((filter_hysteresis_threshold apply_hysteresis_threshold img low high "bool").isBoolA = true
      ∧ (filter_hysteresis_threshold apply_hysteresis_threshold img low high "float").isFloatA = true
      ∧ valsAll (filter_hysteresis_threshold apply_hysteresis_threshold img low high "float")
          (fun x => x == 0 || x == 1) = true
      ∧ (filter_hysteresis_threshold apply_hysteresis_threshold img low high "uint8").isUint8A = true
      ∧ valsAll (filter_hysteresis_threshold apply_hysteresis_threshold img low high "uint8")
          (fun x => x == 0 || x == 255) = true)
    ∧ ((filter_otsu_threshold threshold_otsu img "bool").isBoolA = true
      ∧ (filter_otsu_threshold threshold_otsu img "float").isFloatA = true
      ∧ valsAll (filter_otsu_threshold threshold_otsu img "float")
          (fun x => x == 0 || x == 1) = true
      ∧ (filter_otsu_threshold threshold_otsu img "uint8").isUint8A = true
      ∧ valsAll (filter_otsu_threshold threshold_otsu img "uint8")
          (fun x => x == 0 || x == 255) = true)
    ∧ ((filter_local_otsu_threshold rank_otsu img disk_size "bool").isBoolA = true
      ∧ (filter_local_otsu_threshold rank_otsu img disk_size "float").isFloatA = true
      ∧ valsAll (filter_local_otsu_threshold rank_otsu img disk_size "float")
          (fun x => x == 0 || x == 1) = true
      ∧ (filter_local_otsu_threshold rank_otsu img disk_size "uint8").isUint8A = true
      ∧ valsAll (filter_local_otsu_threshold rank_otsu img disk_size "uint8")
          (fun x => x == 0 || x == 255) = true)
    ∧ ((filter_entropy rank_entropy img neighborhood threshold "bool").isBoolA = true
      ∧ (filter_entropy rank_entropy img neighborhood threshold "float").isFloatA = true
      ∧ valsAll (filter_entropy rank_entropy img neighborhood threshold "float")
          (fun x => x == 0 || x == 1) = true
      ∧ (filter_entropy rank_entropy img neighborhood threshold "uint8").isUint8A = true
      ∧ valsAll (filter_entropy rank_entropy img neighborhood threshold "uint8")
          (fun x => x == 0 || x == 255) = true)
    ∧ ((filter_canny canny img sigma low_t high_t "bool").isBoolA = true
      ∧ (filter_canny canny img sigma low_t high_t "float").isFloatA = true
      ∧ valsAll (filter_canny canny img sigma low_t high_t "float")
          (fun x => x == 0 || x == 1) = true
      ∧ (filter_canny canny img sigma low_t high_t "uint8").isUint8A = true
      ∧ valsAll (filter_canny canny img sigma low_t high_t "uint8")
          (fun x => x == 0 || x == 255) = true) := by
  refine ⟨⟨?_, ?_, ?_, ?_, ?_⟩, ⟨?_, ?_, ?_, ?_, ?_⟩, ⟨?_, ?_, ?_, ?_, ?_⟩,
    ⟨?_, ?_, ?_, ?_, ?_⟩, ⟨?_, ?_, ?_, ?_, ?_⟩⟩ <;>
    simp only [filter_hysteresis_threshold, filter_otsu_threshold, filter_local_otsu_threshold,
      filter_entropy, filter_canny, reduceIte] <;>
    first
    | rfl
    | exact normFloat_vals01 _
    | exact normU8_vals0255 _ _ rfl rfl

/-- Claim C2.  For every transform that accepts an output_type selector and
every selector string other than "bool" and "float", the call returns
exactly the result that output_type "uint8" would return: the selector is
never rejected, it silently takes the uint8 branch. -/
theorem C2_output_type_fallback
    (s : String) (hb : s ≠ "bool") (hf : s ≠ "float")
    (apply_hysteresis_threshold : List (List ℚ) → ℚ → ℚ → List (List Bool))
    (threshold_otsu : List (List ℚ) → ℚ)
    (rank_otsu : List (List ℚ) → ℕ → List (List ℚ))
    (rank_entropy : List (List ℚ) → ℕ → List (List ℚ))
    (canny : List (List ℚ) → ℚ → ℚ → ℚ → List (List Bool))
    (equalize_hist : NpArray → ℕ → List (List ℚ))
    (equalize_adapthist : NpArray → ℕ → ℚ → List (List ℚ))
    (rank_autolevel : List (List ℚ) → ℕ → List (List ℚ))
    (rank_modal : List (List ℕ) → ℕ → List (List ℕ))
    (rgb : List (List (ℚ × ℚ × ℚ))) (a : NpArray) (img : List (List ℚ))
    (nimg : List (List ℕ)) (low high threshold sigma low_t high_t clip_limit : ℚ)
    (disk_size neighborhood nbins min_size neigh : ℕ) :
    filter_rgb_to_grayscale rgb s = filter_rgb_to_grayscale rgb "uint8"
    ∧ filter_complement a s = filter_complement a "uint8"
    ∧ filter_hysteresis_threshold apply_hysteresis_threshold img low high s
        = filter_hysteresis_threshold apply_hysteresis_threshold img low high "uint8"
    ∧ filter_otsu_threshold threshold_otsu img s = filter_otsu_threshold threshold_otsu img "uint8"
    ∧ filter_local_otsu_threshold rank_otsu img disk_size s
        = filter_local_otsu_threshold rank_otsu img disk_size "uint8"
    ∧ filter_entropy rank_entropy img neighborhood threshold s
        = filter_entropy rank_entropy img neighborhood threshold "uint8"
    ∧ filter_canny canny img sigma low_t high_t s
        = filter_canny canny img sigma low_t high_t "uint8"
    ∧ filter_remove_small_objects a min_size s = filter_remove_small_objects a min_size "uint8"
    ∧ filter_histogram_equalization equalize_hist a nbins s
        = filter_histogram_equalization equalize_hist a nbins "uint8"
    ∧ filter_adaptive_equalization equalize_adapthist a nbins clip_limit s
        = filter_adaptive_equalization equalize_adapthist a nbins clip_limit "uint8"
    ∧ filter_autolevel rank_autolevel img disk_size s
        = filter_autolevel rank_autolevel img disk_size "uint8"
    ∧ filter_subtract_mean nimg neigh s = filter_subtract_mean nimg neigh "uint8"
    ∧ filter_modal rank_modal nimg neigh s = filter_modal rank_modal nimg neigh "uint8" := by
  refine ⟨?_, ?_, ?_, ?_, ?_, ?_, ?_, ?_, ?_, ?_, ?_, ?_, rfl⟩
  · simp only [filter_rgb_to_grayscale]
    rw [if_pos hf, if_pos (by decide)]
  · simp only [filter_complement]
    rw [if_neg hf, if_neg (by decide)]
  · simp only [filter_hysteresis_threshold]
    rw [if_neg hb, if_neg hf, if_neg (by decide), if_neg (by decide)]
  · simp only [filter_otsu_threshold]
    rw [if_neg hb, if_neg hf, if_neg (by decide), if_neg (by decide)]
  · simp only [filter_local_otsu_threshold]
    rw [if_neg hb, if_neg hf, if_neg (by decide), if_neg (by decide)]
  · simp only [filter_entropy]
    rw [if_neg hb, if_neg hf, if_neg (by decide), if_neg (by decide)]
  · simp only [filter_canny]
    rw [if_neg hb, if_neg hf, if_neg (by decide), if_neg (by decide)]
  · simp only [filter_remove_small_objects]
    rw [if_neg hb, if_neg hf, if_neg (by decide), if_neg (by decide)]
  · simp only [filter_histogram_equalization]
    rw [if_neg hf, if_neg (show ¬(("uint8" : String) = "float") by decide)]
  · simp only [filter_adaptive_equalization]
    rw [if_neg hf, if_neg (show ¬(("uint8" : String) = "float") by decide)]
  · simp only [filter_autolevel]
    rw [if_neg hb, if_neg hf, if_neg (by decide), if_neg (by decide)]
  · simp only [filter_subtract_mean]
    rw [if_neg hb, if_neg hf, if_neg (by decide), if_neg (by decide)]

/-- Witness for claim C2: the unrecognized selector "uint16" at a concrete
input produces exactly the uint8 result. -/
theorem C2_output_type_fallback_witness :
    filter_otsu_threshold (fun _ => 5) [[3, 9]] "uint16"
      = filter_otsu_threshold (fun _ => 5) [[3, 9]] "uint8" :=
  (C2_output_type_fallback "uint16" (by decide) (by decide)
    (fun _ _ _ => []) (fun _ => 5) (fun _ _ => []) (fun _ _ => []) (fun _ _ _ _ => [])
    (fun _ _ => []) (fun _ _ _ => []) (fun _ _ => []) (fun _ _ => [])
    [] (.uint8A []) [[3, 9]] [] 0 0 0 0 0 0 0 0 0 0 0 0).2.2.2.1

/-- Reading an elementwise-mapped grid at an in-bounds position. -/
theorem bget_nmap {f : ℚ → Bool} {g : List (List ℚ)} {p : ℕ × ℕ}
    (hr : p.1 < g.length) (hc : p.2 < (g.getD p.1 []).length) :
    bget (nmap f g) p = f (qget g p) := by
  unfold bget nmap qget
  rw [getD_map_lt hr ([] : List ℚ)]
  exact getD_map_lt hc 0 false

/-- Reading an elementwise-zipped grid at a position inside both inputs. -/
theorem bget_nzip {f : ℚ → ℚ → Bool} {a b : List (List ℚ)} {p : ℕ × ℕ}
    (hra : p.1 < a.length) (hrb : p.1 < b.length)
    (hca : p.2 < (a.getD p.1 []).length) (hcb : p.2 < (b.getD p.1 []).length) :
    bget (nzip f a b) p = f (qget a p) (qget b p) := by
  unfold bget nzip qget
  rw [getD_zipWith_lt hra hrb ([] : List ℚ) ([] : List ℚ)]
  exact getD_zipWith_lt hca hcb 0 0 false

/-- Claim C3.  At every in-bounds pixel, the global Otsu transform marks
foreground iff the pixel strictly exceeds the single whole-image threshold,
the local Otsu transform marks foreground iff the pixel is less than or
equal to its per-pixel threshold, and the local comparison is exactly the
negation of the strict comparison against the same per-pixel threshold: the
two directions are opposite. -/
theorem C3_otsu_comparison_directions
    (threshold_otsu : List (List ℚ) → ℚ) (rank_otsu : List (List ℚ) → ℕ → List (List ℚ))
    (img : List (List ℚ)) (disk_size : ℕ) (p : ℕ × ℕ)
    (hr : p.1 < img.length) (hc : p.2 < (img.getD p.1 []).length)
    (hr2 : p.1 < (rank_otsu img disk_size).length)
    (hc2 : p.2 < ((rank_otsu img disk_size).getD p.1 []).length) :
    bget (maskOf (filter_otsu_threshold threshold_otsu img "bool")) p
      = decide (qget img p > threshold_otsu img)
    ∧ bget (maskOf (filter_local_otsu_threshold rank_otsu img disk_size "bool")) p
      = decide (qget img p ≤ qget (rank_otsu img disk_size) p)
    ∧ decide (qget img p ≤ qget (rank_otsu img disk_size) p)
      = !decide (qget img p > qget (rank_otsu img disk_size) p) := by
  refine ⟨?_, ?_, ?_⟩
  · simp only [filter_otsu_threshold, reduceIte, maskOf]
    exact bget_nmap hr hc
  · simp only [filter_local_otsu_threshold, reduceIte, maskOf]
    exact bget_nzip hr hr2 hc hc2
  · rcases le_or_lt (qget img p) (qget (rank_otsu img disk_size) p) with hle | hlt
    · simp [hle, not_lt.mpr hle]
    · simp [hlt, not_le.mpr hlt]

/-- Witness for claim C3 at a concrete image and concrete library results:
pixel 4 against global threshold 5 is background, and pixel 4 against local
threshold 4 is foreground. -/
theorem C3_otsu_comparison_directions_witness :
    bget (maskOf (filter_otsu_threshold (fun _ => (5 : ℚ)) [[(4 : ℚ)]] "bool")) (0, 0) = false
    ∧ bget (maskOf (filter_local_otsu_threshold (fun _ _ => [[(4 : ℚ)]]) [[(4 : ℚ)]] 3 "bool"))
        (0, 0) = true := by
  have h := C3_otsu_comparison_directions (fun _ => (5 : ℚ)) (fun _ _ => [[(4 : ℚ)]])
    [[(4 : ℚ)]] 3 (0, 0) (by decide) (by decide) (by decide) (by decide)
  refine ⟨h.1.trans ?_, h.2.1.trans ?_⟩ <;> norm_num [qget]

/-- Well-formedness of a dynamically typed array: a uint8 array holds only
values representable in 8 bits (NumPy guarantees this by construction; our
lists state it as a hypothesis). -/
def u8wf : NpArray → Bool
  | .uint8A l => l.all (fun row => row.all (fun n => decide (n < 256)))
  | _ => true

/-- Identity map on grids. -/
theorem nmap_id (g : List (List α)) : nmap (fun x => x) g = g := by
  simp [nmap]

/-- Equation for the complement's float branch. -/
theorem fc_float (a : NpArray) :
    filter_complement a "float" = .floatA (nmap (fun x => 1 - x) (toQ a)) := by
  unfold filter_complement
  rw [if_pos rfl]

/-- Equation for the complement's uint8 branch on a uint8 array. -/
theorem fc_u8_uint8 (l : List (List ℕ)) :
    filter_complement (.uint8A l) "uint8" = .uint8A (nmap (fun n => 255 - n) l) := by
  unfold filter_complement
  rw [if_neg (by decide)]

/-- Equation for the complement's uint8 branch on a float array. -/
theorem fc_u8_float (l : List (List ℚ)) :
    filter_complement (.floatA l) "uint8" = .floatA (nmap (fun x => 255 - x) l) := by
  unfold filter_complement
  rw [if_neg (by decide)]

/-- Equation for the complement's uint8 branch on a boolean array. -/
theorem fc_u8_bool (l : List (List Bool)) :
    filter_complement (.boolA l) "uint8"
      = .uint8A (nmap (fun b => 255 - (if b then 1 else 0)) l) := by
  unfold filter_complement
  rw [if_neg (by decide)]

/-- Claim C4.  For every well-formed image and for both t = "uint8" and
t = "float", applying the complement twice is the elementwise identity on
values: complement(complement(x, t), t) == x. -/
theorem C4_double_complement_identity (a : NpArray) (h : u8wf a = true) :
    toQ (filter_complement (filter_complement a "uint8") "uint8") = toQ a
    ∧ toQ (filter_complement (filter_complement a "float") "float") = toQ a := by
  constructor
  · cases a with
    | boolA l =>
      rw [fc_u8_bool, fc_u8_uint8]
      simp only [toQ, nmap_nmap]
      refine (nmap_congr ?_)
      intro row hrow b hb
      cases b <;> simp
    | floatA l =>
      rw [fc_u8_float, fc_u8_float]
      simp only [toQ, nmap_nmap]
      have hfun : (fun x : ℚ => 255 - (255 - x)) = fun x => x := funext fun x => by ring
      rw [hfun, nmap_id]
    | uint8A l =>
      rw [fc_u8_uint8, fc_u8_uint8]
      simp only [toQ, nmap_nmap]
      refine (nmap_congr ?_)
      intro row hrow n hn
      simp only [u8wf, List.all_eq_true] at h
      have hlt : n < 256 := by simpa using h row hrow n hn
      congr 1
      omega
  · rw [fc_float, fc_float]
    simp only [toQ, nmap_nmap]
    have hfun : (fun x : ℚ => 1 - (1 - x)) = fun x => x := funext fun x => by ring
    rw [hfun, nmap_id]

/-- Witness for claim C4 at a concrete uint8 image. -/
theorem C4_double_complement_identity_witness :
    toQ (filter_complement (filter_complement (.uint8A [[128, 3]]) "uint8") "uint8")
      = toQ (.uint8A [[128, 3]])
    ∧ toQ (filter_complement (filter_complement (.uint8A [[128, 3]]) "float") "float")
      = toQ (.uint8A [[128, 3]]) :=
  C4_double_complement_identity (.uint8A [[128, 3]]) (by decide)

/-- Reading a grid built by mapping over row and column ranges. -/
theorem bget_ranges {B : ℕ → ℕ → Bool} {W : ℕ → ℕ} {R : ℕ} {p : ℕ × ℕ}
    (hr : p.1 < R) (hc : p.2 < W p.1) :
    bget ((List.range R).map (fun r => (List.range (W r)).map (fun c => B r c))) p = B p.1 p.2 := by
  unfold bget
  rw [getD_range_map hr ([] : List Bool)]
  exact getD_range_map hc false

/-- Reading a natural-number grid built by mapping over row and column
ranges. -/
theorem nget_ranges {B : ℕ → ℕ → ℕ} {W : ℕ → ℕ} {R : ℕ} {p : ℕ × ℕ}
    (hr : p.1 < R) (hc : p.2 < W p.1) :
    nget ((List.range R).map (fun r => (List.range (W r)).map (fun c => B r c))) p = B p.1 p.2 := by
  unfold nget
  rw [getD_range_map hr ([] : List ℕ)]
  exact getD_range_map hc 0

/-- Reading a zipped natural-number grid at a position inside both inputs. -/
theorem bget_nzip_n {f : ℕ → ℕ → Bool} {a b : List (List ℕ)} {p : ℕ × ℕ}
    (hra : p.1 < a.length) (hrb : p.1 < b.length)
    (hca : p.2 < (a.getD p.1 []).length) (hcb : p.2 < (b.getD p.1 []).length) :
    bget (nzip f a b) p = f (nget a p) (nget b p) := by
  unfold bget nzip nget
  rw [getD_zipWith_lt hra hrb ([] : List ℕ) ([] : List ℕ)]
  exact getD_zipWith_lt hca hcb 0 0 false

/-- Counterexample to claim C8 as stated: on the uniform image [[200]] with
a 3-by-3 window the local mean at (0, 0) is 200, so "original > local_mean"
is False there, yet the transform's boolean output at (0, 0) is True (the
library's rank filter returns the shifted difference 127, and 200 > 127). -/
theorem C8_subtract_mean_cex :
    bget (maskOf (filter_subtract_mean [[200]] 3 "bool")) (0, 0) = true
    ∧ decide ((nget [[200]] (0, 0) : ℚ) > localMeanQ [[200]] 0 0 3) = false := by
  have hwc : winCells [[200]] 0 0 3 = [(0, 0)] := by decide
  have hlm : localMeanQ [[200]] 0 0 3 = 200 := by
    rw [localMeanQ, hwc]
    norm_num [nget]
  have hsr : sk_rank_subtract_mean [[200]] 3 = [[127]] := by
    unfold sk_rank_subtract_mean
    simp only [List.length_cons, List.length_nil, List.range_succ, List.range_zero,
      List.nil_append, List.map_cons, List.map_nil, List.getD]
    rw [show (([[200]] : List (List ℕ)).get? 0).getD [] = [200] from rfl]
    simp only [List.length_cons, List.length_nil, List.range_succ, List.range_zero,
      List.nil_append, List.map_cons, List.map_nil]
    rw [hwc, if_neg (by decide), hlm]
    norm_num [nget, ratToU8]
    all_goals decide
  constructor
  · simp only [filter_subtract_mean, reduceIte, maskOf]
    rw [hsr]
    decide
  · simp only [hlm, nget]
    norm_num

/-- Claim C8 as amended.  The pre-normalization output of the subtract-mean
transform at an in-bounds pixel is original > r, where r is the library
rank filter's value: not the local mean itself but the truncation of
(original - local_mean) / 2 + 127; the comparison original > local_mean
claimed by the specification is not what the transform computes. -/
theorem C8_subtract_mean_shifted (g : List (List ℕ)) (neigh : ℕ) (p : ℕ × ℕ)
    (hr : p.1 < g.length) (hc : p.2 < (g.getD p.1 []).length)
    (hw : (winCells g p.1 p.2 neigh).length ≠ 0) :
    bget (maskOf (filter_subtract_mean g neigh "bool")) p
      = decide (nget g p > nget (sk_rank_subtract_mean g neigh) p)
    ∧ nget (sk_rank_subtract_mean g neigh) p
      = ratToU8 (((nget g p : ℚ) - localMeanQ g p.1 p.2 neigh) / 2 + 127) := by
  have hlen : (sk_rank_subtract_mean g neigh).length = g.length := by
    simp [sk_rank_subtract_mean]
  have hrow : ((sk_rank_subtract_mean g neigh).getD p.1 []).length = (g.getD p.1 []).length := by
    unfold sk_rank_subtract_mean
    rw [getD_range_map hr ([] : List ℕ)]
    simp
  constructor
  · simp only [filter_subtract_mean, reduceIte, maskOf]
    exact bget_nzip_n hr (hlen ▸ hr) hc (hrow ▸ hc)
  · unfold sk_rank_subtract_mean
    rw [nget_ranges hr hc, if_neg hw]

/-- Witness for the amended claim C8 at a concrete image. -/
theorem C8_subtract_mean_shifted_witness :
    bget (maskOf (filter_subtract_mean [[200, 100]] 1 "bool")) (0, 0)
      = decide (nget [[200, 100]] (0, 0) > nget (sk_rank_subtract_mean [[200, 100]] 1) (0, 0))
    ∧ nget (sk_rank_subtract_mean [[200, 100]] 1) (0, 0)
      = ratToU8 (((nget [[200, 100]] (0, 0) : ℚ) - localMeanQ [[200, 100]] 0 0 1) / 2 + 127) :=
  C8_subtract_mean_shifted [[200, 100]] 1 (0, 0) (by decide) (by decide) (by decide)

/-- A set is contained in its one-round expansion. -/
theorem subset_expand (g : List (List Bool)) (s : Finset (ℕ × ℕ)) : s ⊆ expand g s :=
  Finset.subset_union_left

/-- Iterated expansions form an increasing chain. -/
theorem iterate_expand_subset_succ (g : List (List Bool)) (s : Finset (ℕ × ℕ)) (n : ℕ) :
    (expand g)^[n] s ⊆ (expand g)^[n + 1] s := by
  rw [Function.iterate_succ_apply']
  exact subset_expand g _

/-- Monotonicity of the chain in the number of rounds. -/
theorem iterate_expand_le (g : List (List Bool)) (s : Finset (ℕ × ℕ)) {m n : ℕ}
    (h : m ≤ n) : (expand g)^[m] s ⊆ (expand g)^[n] s := by
  induction n with
  | zero =>
    have : m = 0 := Nat.le_zero.mp h
    subst this
    exact subset_rfl
  | succ k ih =>
    rcases Nat.lt_or_ge m (k + 1) with hm | hm
    · exact (ih (Nat.lt_succ_iff.mp hm)).trans (iterate_expand_subset_succ g s k)
    · have : m = k + 1 := le_antisymm h hm
      subst this
      exact subset_rfl

/-- A maximal row length bounds every row length. -/
theorem le_foldr_max {l : List ℕ} {x : ℕ} (h : x ∈ l) : x ≤ l.foldr max 0 := by
  induction l with
  | nil => cases h
  | cons a t ih =>
    rcases List.mem_cons.mp h with rfl | h
    · exact le_max_left _ _
    · exact (ih h).trans (le_max_right _ _)

/-- Row lengths are bounded by the grid width. -/
theorem rowlen_le_gridW {g : List (List α)} {r : ℕ} (h : r < g.length) :
    (g.getD r []).length ≤ gridW g := by
  apply le_foldr_max
  rw [List.getD_eq_getElem _ _ h]
  exact List.mem_map.mpr ⟨_, List.getElem_mem h, rfl⟩

/-- True pixels lie inside the grid's bounding box. -/
theorem mem_allPos_of_bget {g : List (List Bool)} {q : ℕ × ℕ} (h : bget g q = true) :
    q ∈ allPos g := by
  unfold bget at h
  by_cases hr : q.1 < g.length
  · by_cases hc : q.2 < (g.getD q.1 []).length
    · exact Finset.mem_product.mpr
        ⟨Finset.mem_range.mpr hr, Finset.mem_range.mpr (lt_of_lt_of_le hc (rowlen_le_gridW hr))⟩
    · rw [List.getD_eq_default (g.getD q.1 []) false (by omega)] at h
      exact absurd h (by decide)
  · rw [List.getD_eq_default g [] (by omega)] at h
    simp at h

/-- Soundness of the iteration: everything it collects is reachable. -/
theorem reach_of_mem_iterate {g : List (List Bool)} {p : ℕ × ℕ} :
    ∀ (n : ℕ) (q : ℕ × ℕ), q ∈ (expand g)^[n] {p} → Reach4 g p q := by
  intro n
  induction n with
  | zero =>
    intro q h
    rw [Function.iterate_zero_apply, Finset.mem_singleton] at h
    subst h
    exact Relation.ReflTransGen.refl
  | succ k ih =>
    intro q h
    rw [Function.iterate_succ_apply'] at h
    rcases Finset.mem_union.mp h with h | h
    · exact ih q h
    · rcases Finset.mem_filter.mp h with ⟨-, a, ha, hstep⟩
      exact (ih a ha).tail hstep

/-- Iterates stay inside the bounding box together with the start. -/
theorem iterate_expand_subset_box (g : List (List Bool)) (p : ℕ × ℕ) (n : ℕ) :
    (expand g)^[n] {p} ⊆ insert p (allPos g) := by
  induction n with
  | zero =>
    rw [Function.iterate_zero_apply]
    exact Finset.singleton_subset_iff.mpr (Finset.mem_insert_self p _)
  | succ k ih =>
    rw [Function.iterate_succ_apply']
    intro x hx
    rcases Finset.mem_union.mp hx with hx | hx
    · exact ih hx
    · exact Finset.mem_insert_of_mem (Finset.mem_filter.mp hx).1

/-- Pigeonhole: within card-many rounds some round adds nothing. -/
theorem exists_fixed_round (g : List (List Bool)) (p : ℕ × ℕ) :
    ∃ m < g.length * gridW g + 1, (expand g)^[m + 1] {p} = (expand g)^[m] {p} := by
  by_contra hcon
  push_neg at hcon
  have hgrow : ∀ m, m ≤ g.length * gridW g + 1 → m + 1 ≤ ((expand g)^[m] {p}).card := by
    intro m
    induction m with
    | zero =>
      intro _
      simp
    | succ k ih =>
      intro hk1
      have hk := ih (by omega)
      have hne := hcon k (by omega)
      have hss : (expand g)^[k] {p} ⊂ (expand g)^[k + 1] {p} :=
        Finset.ssubset_iff_subset_ne.mpr ⟨iterate_expand_subset_succ g _ k, Ne.symm hne⟩
      have := Finset.card_lt_card hss
      omega
  have h1 := hgrow (g.length * gridW g + 1) le_rfl
  have h2 : ((expand g)^[g.length * gridW g + 1] {p}).card ≤ g.length * gridW g + 1 := by
    calc ((expand g)^[g.length * gridW g + 1] {p}).card
        ≤ (insert p (allPos g)).card :=
          Finset.card_le_card (iterate_expand_subset_box g p _)
      _ ≤ (allPos g).card + 1 := Finset.card_insert_le _ _
      _ = g.length * gridW g + 1 := by
          rw [allPos, Finset.card_product, Finset.card_range, Finset.card_range]
  omega

/-- The saturated expansion is a fixpoint of one more round. -/
theorem expand_reachF (g : List (List Bool)) (p : ℕ × ℕ) :
    expand g (reachF g p) = reachF g p := by
  obtain ⟨m, hm, hfix⟩ := exists_fixed_round g p
  have hstable : ∀ k, (expand g)^[m + k] {p} = (expand g)^[m] {p} := by
    intro k
    induction k with
    | zero => rfl
    | succ j ih =>
      have harith : m + (j + 1) = (m + j) + 1 := rfl
      rw [harith, Function.iterate_succ_apply', ih,
        ← Function.iterate_succ_apply' (expand g) m {p}, hfix]
  have hNm : reachF g p = (expand g)^[m] {p} := by
    unfold reachF
    rw [show g.length * gridW g + 1 = m + (g.length * gridW g + 1 - m) by omega]
    exact hstable _
  rw [hNm, ← Function.iterate_succ_apply' (expand g) m {p}]
  exact hfix

/-- Completeness of the iteration: every reachable position is collected. -/
theorem mem_reachF_of_reach {g : List (List Bool)} {p q : ℕ × ℕ} (h : Reach4 g p q) :
    q ∈ reachF g p := by
  induction h with
  | refl => exact iterate_expand_le g {p} (Nat.zero_le _) (Finset.mem_singleton_self p)
  | @tail b c hab hstep ih =>
    rw [← expand_reachF g p]
    refine Finset.mem_union_right _ (Finset.mem_filter.mpr ⟨?_, ?_⟩)
    · have hc : bget g c = true := by
        simp only [stepB, Bool.and_eq_true] at hstep
        exact hstep.1.2
      exact mem_allPos_of_bget hc
    · exact ⟨b, ih, hstep⟩

/-- The saturated expansion computes exactly the reachability relation. -/
theorem mem_reachF_iff {g : List (List Bool)} {p q : ℕ × ℕ} :
    q ∈ reachF g p ↔ Reach4 g p q :=
  ⟨fun h => reach_of_mem_iterate _ q h, mem_reachF_of_reach⟩

/-- The abstract component size equals the computed one. -/
theorem ncard_reach_eq_card_reachF (g : List (List Bool)) (p : ℕ × ℕ) :
    Set.ncard {q | Reach4 g p q} = (reachF g p).card := by
  have hset : {q | Reach4 g p q} = ↑(reachF g p) := by
    ext q
    simp [mem_reachF_iff]
  rw [hset, Set.ncard_coe_Finset]

/-- Claim C7 (amended to the 4-adjacency the library defaults to).  The
transform coerces its input to boolean whatever the element type; a pixel of
the boolean output is True iff it was a True pixel of the coerced input and
its connected component under orthogonal adjacency has at least min_size
pixels: smaller components are zeroed, larger ones and all background pixels
are unchanged. -/
theorem C7_remove_small_objects_components (a : NpArray) (min_size : ℕ) (p : ℕ × ℕ) :
    bget (maskOf (filter_remove_small_objects a min_size "bool")) p = true
      ↔ bget (toBoolA a) p = true
          ∧ min_size ≤ Set.ncard {q | Reach4 (toBoolA a) p q} := by
  rw [ncard_reach_eq_card_reachF]
  simp only [filter_remove_small_objects, reduceIte, maskOf]
  set g := toBoolA a with hgdef
  unfold sk_remove_small_objects
  by_cases hr : p.1 < g.length
  · by_cases hc : p.2 < (g.getD p.1 []).length
    · have hb : bget ((List.range g.length).map fun r =>
            (List.range (g.getD r []).length).map fun c =>
              bget g (r, c) && decide (min_size ≤ (reachF g (r, c)).card)) p
          = (bget g (p.1, p.2) && decide (min_size ≤ (reachF g (p.1, p.2)).card)) := by
        unfold bget
        rw [getD_range_map hr ([] : List Bool)]
        exact getD_range_map hc false
      rw [hb]
      simp [Bool.and_eq_true]
    · have hb : bget ((List.range g.length).map fun r =>
            (List.range (g.getD r []).length).map fun c =>
              bget g (r, c) && decide (min_size ≤ (reachF g (r, c)).card)) p = false := by
        unfold bget
        rw [getD_range_map hr ([] : List Bool)]
        apply List.getD_eq_default
        simp only [List.length_map, List.length_range]
        omega
      have hrhs : bget g p = false := by
        unfold bget
        exact List.getD_eq_default (g.getD p.1 []) false (by omega)
      rw [hb, hrhs]
      simp
  · have hb : bget ((List.range g.length).map fun r =>
          (List.range (g.getD r []).length).map fun c =>
            bget g (r, c) && decide (min_size ≤ (reachF g (r, c)).card)) p = false := by
      unfold bget
      rw [List.getD_eq_default _ ([] : List Bool) (by simpa using by omega)]
      simp
    have hrhs : bget g p = false := by
      unfold bget
      rw [List.getD_eq_default g [] (by omega)]
      simp
    rw [hb, hrhs]
    simp

/-- Counterexample to claim C7 as stated: adjacency is not 8-neighbor.  On
the image with two diagonally touching foreground pixels and min_size 2, the
claim's 8-neighbor reading puts both pixels in one component of size 2, so
it predicts both are kept; the transform (whose labelling is 4-adjacent)
zeroes both. -/
theorem C7_eight_adjacency_cex :
    filter_remove_small_objects (.uint8A [[1, 0], [0, 1]]) 2 "bool"
      = .boolA [[false, false], [false, false]]
    ∧ bget (toBoolA (.uint8A [[1, 0], [0, 1]])) (0, 0) = true
    ∧ 2 ≤ Set.ncard {q | Reach8 (toBoolA (.uint8A [[1, 0], [0, 1]])) (0, 0) q} := by
  have hgb : toBoolA (.uint8A [[1, 0], [0, 1]]) = [[true, false], [false, true]] :=
    by decide
  have hfg : ∀ q : ℕ × ℕ, bget [[true, false], [false, true]] q = true →
      q = (0, 0) ∨ q = (1, 1) := by
    rintro ⟨r, c⟩ h
    unfold bget at h
    rcases r with _ | r
    · rcases c with _ | c
      · exact Or.inl rfl
      · rcases c with _ | c <;>
          simp_all [List.getD_cons_succ, List.getD_cons_zero, List.getD_nil]
    · rcases r with _ | r
      · rcases c with _ | c
        · simp_all [List.getD_cons_succ, List.getD_cons_zero, List.getD_nil]
        · rcases c with _ | c <;>
            simp_all [List.getD_cons_succ, List.getD_cons_zero, List.getD_nil]
      · simp_all [List.getD_cons_succ, List.getD_cons_zero, List.getD_nil]
  have hSeq : {q | Reach8 [[true, false], [false, true]] (0, 0) q}
      = ({(0, 0), (1, 1)} : Set (ℕ × ℕ)) := by
    ext q
    simp only [Set.mem_setOf_eq, Set.mem_insert_iff, Set.mem_singleton_iff]
    constructor
    · intro h
      induction h with
      | refl => exact Or.inl rfl
      | @tail b c hab hstep ih =>
        apply hfg
        simp only [step8, Bool.and_eq_true] at hstep
        exact hstep.1.2
    · rintro (rfl | rfl)
      · exact Relation.ReflTransGen.refl
      · exact Relation.ReflTransGen.single (by decide)
  refine ⟨by decide, by decide, ?_⟩
  rw [hgb, hSeq, Set.ncard_pair (by decide)]
